import Mathlib

/-!
Shallow embedding of the Naive Bayes classifier core (src/NaiveBayes.js).

JavaScript objects used as maps are rendered as insertion-ordered association
lists: assigning to an existing key updates its value in place, assigning to a
fresh key appends it, and for-in enumeration follows the list order (the order
string keys are first inserted).  Machine numbers holding counts are natural
numbers (the code only ever stores 1, 1 + smoothing, and successors of stored
values); probabilities are real numbers.  A JavaScript runtime TypeError is
rendered as an Option/Except failure value, as noted at each site.
-/

set_option maxHeartbeats 1000000

/-- Insertion-ordered association-list lookup, modelling property read m[k]. -/
def alookup {α β : Type} [DecidableEq α] : List (α × β) → α → Option β
  | [], _ => none
  | (k, v) :: rest, a => if k = a then some v else alookup rest a

/-- Insertion-ordered association-list write, modelling property assignment
m[k] = v: an existing key keeps its position, a fresh key is appended. -/
def aset {α β : Type} [DecidableEq α] : List (α × β) → α → β → List (α × β)
  | [], a, b => [(a, b)]
  | (k, v) :: rest, a, b => if k = a then (k, b) :: rest else (k, v) :: aset rest a b

/-- The keys of an association list in enumeration (insertion) order. -/
def keys {α β : Type} (m : List (α × β)) : List α := m.map Prod.fst

/-- A document value as it may be passed from JavaScript: a raw string, an
array of stems, or one of the non-document values the helper checks care
about (null, undefined, a number). -/
inductive JsDoc : Type
  | str (s : String)
  | arr (xs : List String)
  | null
  | undef
  | num (n : Int)
deriving DecidableEq, Repr

/-- An entry of a stored document log: docObj = \x7b label, value \x7d with the
value already stemmed. -/
structure DocObj where
  label : String
  value : List String
deriving DecidableEq, Repr

/-- The classifier state: the fields of the NaiveBayes class. -/
structure NaiveBayes where
  docs : List DocObj
  lastAdded : Nat
  features : List (String × Nat)
  classFeatures : List (String × List (Nat × Nat))
  classTotals : List (String × Nat)
  totalExamples : Nat
  smoothing : Nat
deriving DecidableEq, Repr

/-- The constructor: empty document log and maps, totalExamples seeded at 1,
smoothing constant 1. -/
def newClassifier : NaiveBayes :=
  { docs := [], lastAdded := 0, features := [], classFeatures := [],
    classTotals := [], totalExamples := 1, smoothing := 1 }

/-- The size helper: length of an array or string.  For null, typeof null is
the string object, so the helper reads null.length and the runtime raises a
TypeError, rendered here as an error value.  For undefined and numbers every
type test fails and the helper returns 0. -/
def jsSize : JsDoc → Except Unit Nat
  | .arr xs => .ok xs.length
  | .str s => .ok s.length
  | .null => .error ()
  | .undef => .ok 0
  | .num _ => .ok 0

/-- addDocument: skip when the size check yields a falsy (zero) size, stem a
string document, append the document object to the log, and mark each of its
stems in the features map. -/
def addDocument (stem : String → List String) (c : NaiveBayes) (doc : JsDoc)
    (label : String) : Except Unit NaiveBayes :=
  match jsSize doc with
  | .error e => .error e
  | .ok n =>
    if n = 0 then .ok c
    else
      let stems : List String :=
        match doc with
        | .str s => stem s
        | .arr xs => xs
        | _ => []
      .ok { c with
              docs := c.docs ++ [{ label := label, value := stems }],
              features := stems.foldl (fun m t => aset m t 1) c.features }

/-- addDocuments: addDocument on each element in order; a raised TypeError
propagates out of the loop. -/
def addDocuments (stem : String → List String) (c : NaiveBayes)
    (ds : List JsDoc) (label : String) : Except Unit NaiveBayes :=
  match ds with
  | [] => .ok c
  | d :: rest => (addDocument stem c d label).bind fun c1 => addDocuments stem c1 rest label

/-- The body of the docToFeatures loop for an already-stemmed document: one
entry per features key in enumeration order, 1 when the document contains the
stem (doc.indexOf is not -1), else 0. -/
def docToFeaturesArr (c : NaiveBayes) (stems : List String) : List Nat :=
  c.features.map (fun kv => if stems.contains kv.1 then 1 else 0)

/-- The stems a document contributes: a string is stemmed, an array is used
as is; other values have no stem sequence. -/
def docStems (stem : String → List String) : JsDoc → Option (List String)
  | .str s => some (stem s)
  | .arr xs => some xs
  | _ => none

/-- docToFeatures.  A non-string, non-array document is only dereferenced by
doc.indexOf inside the loop over the features map, so with an empty map the
result is the empty vector and otherwise the runtime raises a TypeError
(rendered as none). -/
def docToFeatures (stem : String → List String) (c : NaiveBayes) (doc : JsDoc) :
    Option (List Nat) :=
  match docStems stem doc with
  | some stems => some (docToFeaturesArr c stems)
  | none => if c.features.isEmpty then some [] else none

/-- The indices of the nonzero (truthy) entries of a positional feature
vector, in the descending order the while (i--) loop visits them. -/
def presentIdx (fs : List Nat) : List Nat :=
  ((List.range fs.length).reverse).filter (fun i => fs.getD i 0 ≠ 0)

/-- One step of the count update: if the stored count at key i is truthy it is
incremented, otherwise the key is set to 1 + smoothing.  This is the common
body of both inner branches of addExample. -/
def updateCount (sm : Nat) (m : List (Nat × Nat)) (i : Nat) : List (Nat × Nat) :=
  if (alookup m i).getD 0 ≠ 0 then aset m i ((alookup m i).getD 0 + 1)
  else aset m i (1 + sm)

/-- addExample with a positional feature vector: initialize a fresh label with
an empty count map and class total 1, bump totalExamples, bump the class
total, and update the count of every truthy feature index.  The in-place
mutation of the inner count object is rendered as one write of the folded
map. -/
def addExample (c : NaiveBayes) (docFeatures : List Nat) (label : String) : NaiveBayes :=
  let c1 :=
    if (alookup c.classFeatures label).isNone then
      { c with classFeatures := aset c.classFeatures label [],
               classTotals := aset c.classTotals label 1 }
    else c
  let c2 := { c1 with totalExamples := c1.totalExamples + 1 }
  let m0 := (alookup c2.classFeatures label).getD []
  let m1 := (presentIdx docFeatures).foldl (updateCount c2.smoothing) m0
  { c2 with
      classTotals := aset c2.classTotals label ((alookup c2.classTotals label).getD 0 + 1),
      classFeatures := aset c2.classFeatures label m1 }

/-- addExample with a keyed feature mapping (the non-array branch): the same
count update applied to each of the mapping values in enumeration order; the
class total is not bumped on this branch. -/
def addExampleMap (c : NaiveBayes) (vals : List Nat) (label : String) : NaiveBayes :=
  let c1 :=
    if (alookup c.classFeatures label).isNone then
      { c with classFeatures := aset c.classFeatures label [],
               classTotals := aset c.classTotals label 1 }
    else c
  let c2 := { c1 with totalExamples := c1.totalExamples + 1 }
  let m0 := (alookup c2.classFeatures label).getD []
  let m1 := vals.foldl (updateCount c2.smoothing) m0
  { c2 with classFeatures := aset c2.classFeatures label m1 }

/-- One train loop iteration per untrained document: compute its feature
vector against the current features map, fold it into the counts, and advance
the lastAdded cursor. -/
def trainLoop (c : NaiveBayes) : List DocObj → NaiveBayes
  | [] => c
  | d :: rest =>
    trainLoop { addExample c (docToFeaturesArr c d.value) d.label with
                  lastAdded := c.lastAdded + 1 } rest

/-- train: process the documents added since the cursor. -/
def train (c : NaiveBayes) : NaiveBayes :=
  trainLoop c (c.docs.drop c.lastAdded)

/-- The count the scorer uses for feature index i of class map m: the stored
count when truthy, otherwise the smoothing constant (the || fallback). -/
def scoreCount (sm : Nat) (m : List (Nat × Nat)) (i : Nat) : Nat :=
  if (alookup m i).getD 0 ≠ 0 then (alookup m i).getD 0 else sm

/-- probabilityOfClass on a positional vector.  For a label absent from
classFeatures the first truthy feature dereferences a field of undefined and
the runtime raises a TypeError; a label absent from classTotals makes every
log quotient and the prior NaN.  Both non-real outcomes are rendered as
none. -/
noncomputable def probabilityOfClass (c : NaiveBayes) (docFeatures : List Nat)
    (label : String) : Option Real :=
  match alookup c.classFeatures label with
  | none =>
    if (presentIdx docFeatures).isEmpty then
      match alookup c.classTotals label with
      | none => none
      | some t => some (((t : Real) / (c.totalExamples : Real)) * Real.exp 0)
    else none
  | some m =>
    match alookup c.classTotals label with
    | none => none
    | some t =>
      let prob : Real :=
        ((presentIdx docFeatures).map
          (fun i => Real.log ((scoreCount c.smoothing m i : Real) / (t : Real)))).sum
      some (((t : Real) / (c.totalExamples : Real)) * Real.exp prob)

/-- An entry of the classification list: \x7b label, value \x7d. -/
structure ClassEntry where
  label : String
  value : Real

/-- The loop of getClassifications: one entry per class in classFeatures
enumeration order, recomputing the feature vector for each; a raised
TypeError propagates (none). -/
noncomputable def labelsLoop (stem : String → List String) (c : NaiveBayes)
    (doc : JsDoc) : List String → Option (List ClassEntry)
  | [] => some []
  | l :: ls => do
    let fs ← docToFeatures stem c doc
    let v ← probabilityOfClass c fs l
    let rest ← labelsLoop stem c doc ls
    pure ({ label := l, value := v } :: rest)

/-- The sort comparator y.value - x.value: x may precede y exactly when
x.value is at least y.value, giving a descending, stable order. -/
noncomputable def byValueDesc (x y : ClassEntry) : Bool :=
  decide (y.value ≤ x.value)

/-- getClassifications: score every trained class and sort descending by
value. -/
noncomputable def getClassifications (stem : String → List String)
    (c : NaiveBayes) (doc : JsDoc) : Option (List ClassEntry) :=
  (labelsLoop stem c doc (keys c.classFeatures)).map
    (fun ls => ls.mergeSort byValueDesc)

/-- The outcome of classify: the thrown string, a propagated runtime
TypeError, or the winning label. -/
inductive ClassifyResult : Type
  | thrown (msg : String)
  | typeError
  | ok (label : String)
deriving Repr

/-- classify: throw the literal string Not trained on an empty classification
list, otherwise return the label of the first (highest valued) entry. -/
noncomputable def classify (stem : String → List String) (c : NaiveBayes)
    (doc : JsDoc) : ClassifyResult :=
  match getClassifications stem c doc with
  | none => .typeError
  | some [] => .thrown "Not trained"
  | some (e :: _) => .ok e.label

/-- State-passing variant of docToFeatures: the method writes no field, so the
state threads through unchanged. -/
def docToFeaturesS (stem : String → List String) (c : NaiveBayes) (doc : JsDoc) :
    Option (List Nat) × NaiveBayes :=
  (docToFeatures stem c doc, c)

/-- State-passing variant of probabilityOfClass: the method writes no field. -/
noncomputable def probabilityOfClassS (c : NaiveBayes) (docFeatures : List Nat)
    (label : String) : Option Real × NaiveBayes :=
  (probabilityOfClass c docFeatures label, c)

/-- State-passing variant of the getClassifications loop, threading the state
through each docToFeatures and probabilityOfClass call. -/
noncomputable def labelsLoopS (stem : String → List String) (doc : JsDoc) :
    NaiveBayes → List String → Option (List ClassEntry) × NaiveBayes
  | c, [] => (some [], c)
  | c, l :: ls =>
    match docToFeaturesS stem c doc with
    | (none, c1) => (none, c1)
    | (some fs, c1) =>
      match probabilityOfClassS c1 fs l with
      | (none, c2) => (none, c2)
      | (some v, c2) =>
        match labelsLoopS stem doc c2 ls with
        | (none, c3) => (none, c3)
        | (some rest, c3) => (some ({ label := l, value := v } :: rest), c3)

/-- State-passing variant of getClassifications. -/
noncomputable def getClassificationsS (stem : String → List String)
    (c : NaiveBayes) (doc : JsDoc) : Option (List ClassEntry) × NaiveBayes :=
  match labelsLoopS stem doc c (keys c.classFeatures) with
  | (r, c1) => (r.map (fun ls => ls.mergeSort byValueDesc), c1)

/-- State-passing variant of classify. -/
noncomputable def classifyS (stem : String → List String) (c : NaiveBayes)
    (doc : JsDoc) : ClassifyResult × NaiveBayes :=
  match getClassificationsS stem c doc with
  | (none, c1) => (.typeError, c1)
  | (some [], c1) => (.thrown "Not trained", c1)
  | (some (e :: _), c1) => (.ok e.label, c1)

/-- A single mutating call on a classifier instance, as the public surface
allows: addDocument or addDocuments when they return normally, train, or
addExample in either argument form. -/
inductive StepNB (stem : String → List String) : NaiveBayes → NaiveBayes → Prop
  | doc1 (c : NaiveBayes) (doc : JsDoc) (label : String) (c1 : NaiveBayes)
      (h : addDocument stem c doc label = .ok c1) : StepNB stem c c1
  | docN (c : NaiveBayes) (ds : List JsDoc) (label : String) (c1 : NaiveBayes)
      (h : addDocuments stem c ds label = .ok c1) : StepNB stem c c1
  | tr (c : NaiveBayes) : StepNB stem c (train c)
  | exArr (c : NaiveBayes) (fs : List Nat) (label : String) :
      StepNB stem c (addExample c fs label)
  | exMap (c : NaiveBayes) (vals : List Nat) (label : String) :
      StepNB stem c (addExampleMap c vals label)

/-- The classifier states reachable from a fresh instance by any sequence of
public mutating calls. -/
inductive ReachableNB (stem : String → List String) : NaiveBayes → Prop
  | init : ReachableNB stem newClassifier
  | step (c c1 : NaiveBayes) (hc : ReachableNB stem c) (hs : StepNB stem c c1) :
      ReachableNB stem c1

theorem alookup_aset_self {α β : Type} [DecidableEq α] (m : List (α × β)) (k : α) (v : β) :
    alookup (aset m k v) k = some v := by
  induction m with
  | nil => simp [aset, alookup]
  | cons kv rest ih =>
    obtain ⟨k0, v0⟩ := kv
    by_cases h : k0 = k
    · simp [aset, alookup, h]
    · simp [aset, alookup, h, ih]

theorem alookup_aset_ne {α β : Type} [DecidableEq α] (m : List (α × β)) (k a : α) (v : β)
    (h : k ≠ a) : alookup (aset m k v) a = alookup m a := by
  induction m with
  | nil => simp [aset, alookup, h]
  | cons kv rest ih =>
    obtain ⟨k0, v0⟩ := kv
    by_cases h0 : k0 = k
    · subst h0
      simp [aset, alookup, h]
    · simp only [aset, if_neg h0, alookup]
      by_cases h1 : k0 = a
      · simp [h1]
      · simp [h1, ih]

theorem alookup_aset_cases {α β : Type} [DecidableEq α] {m : List (α × β)} {k a : α}
    {v w : β} (h : alookup (aset m k v) a = some w) :
    (a = k ∧ w = v) ∨ (a ≠ k ∧ alookup m a = some w) := by
  by_cases hak : a = k
  · subst hak
    rw [alookup_aset_self] at h
    exact Or.inl ⟨rfl, (Option.some_injective _ h).symm⟩
  · rw [alookup_aset_ne _ _ _ _ (fun he => hak he.symm)] at h
    exact Or.inr ⟨hak, h⟩

theorem keys_aset {α β : Type} [DecidableEq α] (m : List (α × β)) (k : α) (v : β) :
    keys (aset m k v) = if k ∈ keys m then keys m else keys m ++ [k] := by
  induction m with
  | nil => simp [aset, keys]
  | cons kv rest ih =>
    obtain ⟨k0, v0⟩ := kv
    by_cases h : k0 = k
    · subst h
      simp [aset, keys]
    · simp only [aset, if_neg h, keys, List.map_cons] at ih ⊢
      by_cases hm : k ∈ List.map Prod.fst rest
      · simp [hm, fun he : k0 = k => h he, ih]
      · simp only [List.mem_cons, hm, or_false]
        rw [if_neg (fun he : k = k0 => h he.symm)]
        simp [ih, hm]

theorem mem_keys_iff {α β : Type} [DecidableEq α] (m : List (α × β)) (a : α) :
    a ∈ keys m ↔ (alookup m a).isSome := by
  induction m with
  | nil => simp [keys, alookup]
  | cons kv rest ih =>
    obtain ⟨k0, v0⟩ := kv
    by_cases h : k0 = a
    · simp [keys, alookup, h]
    · show a ∈ k0 :: keys rest ↔ (if k0 = a then some v0 else alookup rest a).isSome
      rw [if_neg h, ← ih, List.mem_cons]
      constructor
      · rintro (he | hm)
        · exact absurd he.symm h
        · exact hm
      · exact Or.inr

theorem getD_of_all_zero {fs : List Nat} (h : ∀ x ∈ fs, x = 0) (i : Nat) :
    fs.getD i 0 = 0 := by
  induction fs generalizing i with
  | nil => simp
  | cons x rest ih =>
    match i with
    | 0 => simpa using h x (List.mem_cons_self x rest)
    | j + 1 =>
      simpa using ih (fun y hy => h y (List.mem_cons_of_mem x hy)) j

theorem mem_presentIdx {fs : List Nat} {j : Nat} :
    j ∈ presentIdx fs ↔ fs.getD j 0 ≠ 0 := by
  unfold presentIdx
  simp only [List.mem_filter, List.mem_reverse, List.mem_range, decide_eq_true_eq]
  constructor
  · exact fun h => h.2
  · intro h
    refine ⟨?_, h⟩
    by_contra hlt
    exact h (List.getD_eq_default _ _ (Nat.le_of_not_lt hlt))

theorem nodup_presentIdx (fs : List Nat) : (presentIdx fs).Nodup :=
  (List.nodup_reverse.2 (List.nodup_range _)).filter _

theorem presentIdx_eq_nil_of_all_zero {fs : List Nat} (h : ∀ x ∈ fs, x = 0) :
    presentIdx fs = [] := by
  apply List.filter_eq_nil_iff.2
  intro i _
  simp only [decide_eq_true_eq, ne_eq, Decidable.not_not]
  exact getD_of_all_zero h i

theorem alookup_updateCount_self (sm : Nat) (m : List (Nat × Nat)) (i : Nat) :
    alookup (updateCount sm m i) i =
      some (if (alookup m i).getD 0 ≠ 0 then (alookup m i).getD 0 + 1 else 1 + sm) := by
  unfold updateCount
  by_cases h : (alookup m i).getD 0 ≠ 0 <;> simp [h, alookup_aset_self]

theorem alookup_updateCount_ne (sm : Nat) (m : List (Nat × Nat)) (i j : Nat)
    (h : j ≠ i) : alookup (updateCount sm m i) j = alookup m j := by
  unfold updateCount
  by_cases h0 : (alookup m i).getD 0 ≠ 0 <;>
    simp [h0, alookup_aset_ne _ _ _ _ (fun he => h he.symm)]

theorem alookup_foldl_updateCount (sm : Nat) (is : List Nat) (hnd : is.Nodup)
    (m : List (Nat × Nat)) (j : Nat) :
    alookup (is.foldl (updateCount sm) m) j =
      if j ∈ is then
        some (if (alookup m j).getD 0 ≠ 0 then (alookup m j).getD 0 + 1 else 1 + sm)
      else alookup m j := by
  induction is generalizing m with
  | nil => simp
  | cons i rest ih =>
    have hnd' : rest.Nodup := (List.nodup_cons.1 hnd).2
    have hni : i ∉ rest := (List.nodup_cons.1 hnd).1
    rw [List.foldl_cons]
    by_cases hj : j = i
    · subst hj
      rw [ih hnd', if_neg hni, alookup_updateCount_self]
      simp
    · rw [ih hnd', alookup_updateCount_ne _ _ _ _ hj]
      by_cases hm : j ∈ rest
      · simp [hm]
      · simp [hm, List.mem_cons, hj]

theorem addExample_docs (c : NaiveBayes) (fs : List Nat) (label : String) :
    (addExample c fs label).docs = c.docs := by
  unfold addExample
  by_cases h : (alookup c.classFeatures label).isNone <;> simp [h]

theorem addExample_features (c : NaiveBayes) (fs : List Nat) (label : String) :
    (addExample c fs label).features = c.features := by
  unfold addExample
  by_cases h : (alookup c.classFeatures label).isNone <;> simp [h]

theorem addExample_lastAdded (c : NaiveBayes) (fs : List Nat) (label : String) :
    (addExample c fs label).lastAdded = c.lastAdded := by
  unfold addExample
  by_cases h : (alookup c.classFeatures label).isNone <;> simp [h]

theorem addExample_smoothing (c : NaiveBayes) (fs : List Nat) (label : String) :
    (addExample c fs label).smoothing = c.smoothing := by
  unfold addExample
  by_cases h : (alookup c.classFeatures label).isNone <;> simp [h]

theorem addExample_totalExamples (c : NaiveBayes) (fs : List Nat) (label : String) :
    (addExample c fs label).totalExamples = c.totalExamples + 1 := by
  unfold addExample
  by_cases h : (alookup c.classFeatures label).isNone <;> simp [h]

theorem addExampleMap_smoothing (c : NaiveBayes) (vals : List Nat) (label : String) :
    (addExampleMap c vals label).smoothing = c.smoothing := by
  unfold addExampleMap
  by_cases h : (alookup c.classFeatures label).isNone <;> simp [h]

theorem addExampleMap_docs (c : NaiveBayes) (vals : List Nat) (label : String) :
    (addExampleMap c vals label).docs = c.docs := by
  unfold addExampleMap
  by_cases h : (alookup c.classFeatures label).isNone <;> simp [h]

theorem addExampleMap_features (c : NaiveBayes) (vals : List Nat) (label : String) :
    (addExampleMap c vals label).features = c.features := by
  unfold addExampleMap
  by_cases h : (alookup c.classFeatures label).isNone <;> simp [h]

theorem trainLoop_docs (ds : List DocObj) (c : NaiveBayes) :
    (trainLoop c ds).docs = c.docs := by
  induction ds generalizing c with
  | nil => rfl
  | cons d rest ih =>
    rw [trainLoop, ih]
    simp [addExample_docs]

theorem trainLoop_features (ds : List DocObj) (c : NaiveBayes) :
    (trainLoop c ds).features = c.features := by
  induction ds generalizing c with
  | nil => rfl
  | cons d rest ih =>
    rw [trainLoop, ih]
    simp [addExample_features]

theorem trainLoop_smoothing (ds : List DocObj) (c : NaiveBayes) :
    (trainLoop c ds).smoothing = c.smoothing := by
  induction ds generalizing c with
  | nil => rfl
  | cons d rest ih =>
    rw [trainLoop, ih]
    simp [addExample_smoothing]

theorem trainLoop_lastAdded (ds : List DocObj) (c : NaiveBayes) :
    (trainLoop c ds).lastAdded = c.lastAdded + ds.length := by
  induction ds generalizing c with
  | nil => rfl
  | cons d rest ih =>
    rw [trainLoop, ih]
    simp
    omega

theorem train_docs (c : NaiveBayes) : (train c).docs = c.docs :=
  trainLoop_docs _ _

theorem train_lastAdded (c : NaiveBayes) :
    (train c).lastAdded = c.lastAdded + (c.docs.length - c.lastAdded) := by
  unfold train
  rw [trainLoop_lastAdded]
  simp

/-- Claim C7: calling train a second time with no documents added since the
previous train call is a no-op: the whole classifier state, in particular all
class feature counts, class totals, totalExamples and the lastAdded cursor,
is unchanged by the second call. -/
theorem train_twice_noop (c : NaiveBayes) : train (train c) = train c := by
  conv_lhs => rw [train]
  rw [train_docs, train_lastAdded]
  rw [List.drop_eq_nil_of_le (by omega)]
  rfl

theorem labelsLoop_map_label (stem : String → List String) (c : NaiveBayes)
    (doc : JsDoc) (ls : List String) (es : List ClassEntry)
    (h : labelsLoop stem c doc ls = some es) : es.map ClassEntry.label = ls := by
  induction ls generalizing es with
  | nil =>
    rw [labelsLoop] at h
    cases h
    rfl
  | cons l rest ih =>
    rw [labelsLoop] at h
    simp only [bind, Option.bind_eq_some, pure] at h
    obtain ⟨fs, hfs, v, hv, rest1, hrest, he⟩ := h
    cases he
    simp [ih rest1 hrest]

/-- Claim C1: classify raises the untrained-model error (the thrown string
Not trained) exactly when the classification list is empty, which happens
exactly when no class has been trained; in particular a freshly constructed
classifier with zero documents added raises it on every input document. -/
theorem classify_untrained_iff (stem : String → List String) (c : NaiveBayes)
    (doc : JsDoc) :
    (classify stem c doc = .thrown "Not trained" ↔
        getClassifications stem c doc = some []) ∧
    (getClassifications stem c doc = some [] ↔ c.classFeatures = []) ∧
    (∀ d : JsDoc, classify stem newClassifier d = .thrown "Not trained") := by
  refine ⟨?_, ?_, ?_⟩
  · unfold classify
    cases hg : getClassifications stem c doc with
    | none => simp
    | some cls =>
      cases cls with
      | nil => simp
      | cons e rest => simp
  · unfold getClassifications
    cases hl : labelsLoop stem c doc (keys c.classFeatures) with
    | none =>
      rw [Option.map_none']
      constructor
      · intro h
        cases h
      · intro h
        rw [h] at hl
        simp [labelsLoop, keys] at hl
    | some es =>
      rw [Option.map_some']
      simp only [Option.some.injEq]
      have hlab := labelsLoop_map_label stem c doc _ es hl
      constructor
      · intro h
        have hes : es = [] := by
          have := congrArg List.length h
          rw [List.length_mergeSort] at this
          exact List.length_eq_zero.1 this
        subst hes
        have : keys c.classFeatures = [] := hlab.symm
        unfold keys at this
        exact List.map_eq_nil_iff.1 this
      · intro h
        have hk : keys c.classFeatures = [] := by rw [h]; rfl
        rw [hk] at hlab
        have hes : es = [] := List.map_eq_nil_iff.1 hlab
        subst hes
        exact List.mergeSort_nil
  · intro d
    simp [classify, getClassifications, labelsLoop, keys, newClassifier]

/-- Claim C3: for every trained label (one present in classTotals) and every
feature vector with zero present features, probabilityOfClass returns exactly
the bare prior classTotals[label] / totalExamples. -/
theorem probabilityOfClass_prior (c : NaiveBayes) (fs : List Nat) (label : String)
    (t : Nat) (ht : alookup c.classTotals label = some t)
    (hz : ∀ x ∈ fs, x = 0) :
    probabilityOfClass c fs label = some ((t : Real) / (c.totalExamples : Real)) := by
  unfold probabilityOfClass
  have hp : presentIdx fs = [] := presentIdx_eq_nil_of_all_zero hz
  cases hm : alookup c.classFeatures label with
  | none =>
    rw [hp, ht]
    simp
  | some m =>
    rw [ht, hp]
    simp

/-- Witness for claim C3 on a classifier trained with one empty example. -/
theorem probabilityOfClass_prior_witness :
    alookup (addExample newClassifier [] "a").classTotals "a" = some 2 ∧
    (∀ x ∈ ([0, 0] : List Nat), x = 0) ∧
    probabilityOfClass (addExample newClassifier [] "a") [0, 0] "a" =
      some ((2 : Real) / (((addExample newClassifier [] "a").totalExamples : Nat) : Real)) :=
  ⟨by rfl, by decide, probabilityOfClass_prior _ _ _ 2 (by rfl) (by decide)⟩

/-- Counterexample to claim C4 as stated: on a classifier trained only for
label a (a reachable state), probabilityOfClass for the never-trained label b
and a vector with one present feature does not score with floor counts: the
count read dereferences a field of the undefined classFeatures entry and the
runtime raises a TypeError, rendered as none. -/
theorem probabilityOfClass_untrained_label_faults :
    probabilityOfClass (addExample newClassifier [1] "a") [1] "b" = none := by
  rfl

theorem alookup_append_single (m : List (Nat × Nat)) (i j v : Nat) :
    alookup (m ++ [(i, v)]) j =
      match alookup m j with
      | some w => some w
      | none => if i = j then some v else none := by
  induction m with
  | nil => simp [alookup]
  | cons kv rest ih =>
    obtain ⟨k0, v0⟩ := kv
    by_cases h : k0 = j
    · simp [alookup, h]
    · simp [alookup, h, ih]

theorem scoreCount_append_floor (sm : Nat) (m : List (Nat × Nat)) (i j : Nat) :
    scoreCount sm (m ++ [(i, sm)]) j = scoreCount sm m j := by
  unfold scoreCount
  rw [alookup_append_single]
  cases hj : alookup m j with
  | some w => simp
  | none =>
    by_cases hij : i = j
    · simp only [hij, if_pos rfl]
      by_cases hsm : sm = 0
      · simp [hsm]
      · simp [hsm]
    · simp [hij]

/-- Claim C4 amended: for any class label with a trained entry and any present
feature with no recorded count for that label, probabilityOfClass uses exactly
the smoothing constant as the count and returns a value, never a fault:
materializing the missing count as an explicit entry holding the smoothing
constant leaves the result unchanged.  Labels never trained are different:
scored directly with at least one present feature they fault (see the
counterexample), and getClassifications never scores them. -/
theorem probabilityOfClass_smoothing_floor (c : NaiveBayes) (fs : List Nat)
    (label : String) (m : List (Nat × Nat)) (t i : Nat)
    (hm : alookup c.classFeatures label = some m)
    (ht : alookup c.classTotals label = some t)
    (hi : alookup m i = none) :
    (probabilityOfClass c fs label).isSome ∧
    probabilityOfClass c fs label =
      probabilityOfClass
        { c with classFeatures := (aset c.classFeatures label (m ++ [(i, c.smoothing)])) }
        fs label := by
  unfold probabilityOfClass
  rw [hm, ht]
  refine ⟨by simp, ?_⟩
  have hm2 : alookup (aset c.classFeatures label (m ++ [(i, c.smoothing)])) label =
      some (m ++ [(i, c.smoothing)]) := alookup_aset_self _ _ _
  rw [hm2]
  show some _ = some _
  have hsum :
      ((presentIdx fs).map
        (fun j => Real.log ((scoreCount c.smoothing m j : Real) / (t : Real)))) =
      ((presentIdx fs).map
        (fun j =>
          Real.log ((scoreCount c.smoothing (m ++ [(i, c.smoothing)]) j : Real) / (t : Real)))) := by
    apply List.map_congr_left
    intro j _
    rw [scoreCount_append_floor c.smoothing m i j]
  rw [hsum]

/-- Witness for the amended claim C4: a trained label scored on a vector whose
present feature has no recorded count returns a value. -/
theorem probabilityOfClass_smoothing_floor_witness :
    alookup (addExample newClassifier [1] "a").classFeatures "a" = some [(0, 2)] ∧
    alookup (addExample newClassifier [1] "a").classTotals "a" = some 2 ∧
    alookup ([(0, 2)] : List (Nat × Nat)) 5 = none ∧
    (probabilityOfClass (addExample newClassifier [1] "a") [0, 0, 0, 0, 0, 1] "a").isSome :=
  ⟨by rfl, by rfl, by rfl,
    (probabilityOfClass_smoothing_floor _ [0, 0, 0, 0, 0, 1] "a" [(0, 2)] 2 5
      (by rfl) (by rfl) (by rfl)).1⟩

/-- Counterexample to claim C8 as stated: addDocument with the non-document
value null does not skip silently: typeof null is the string object, so the
size helper reads null.length and the runtime raises a TypeError. -/
theorem addDocument_null_faults :
    addDocument (fun _ => []) newClassifier JsDoc.null "x" = .error () := by
  rfl

/-- Claim C8 amended: every document argument whose size check yields zero (a
zero-length string, a zero-length sequence, or a non-document value such as
undefined or a number, though not null, whose size check itself faults) is
skipped silently: addDocument returns normally with the whole classifier
state unchanged. -/
theorem addDocument_silent_skip (stem : String → List String) (c : NaiveBayes)
    (doc : JsDoc) (label : String) (h : jsSize doc = .ok 0) :
    addDocument stem c doc label = .ok c := by
  unfold addDocument
  rw [h]
  simp

/-- Witness for the amended claim C8 on the empty string. -/
theorem addDocument_silent_skip_witness :
    jsSize (JsDoc.str "") = .ok 0 ∧
    addDocument (fun _ => []) newClassifier (JsDoc.str "") "x" = .ok newClassifier :=
  ⟨rfl, addDocument_silent_skip _ _ _ _ rfl⟩

theorem addExample_unfold_new (c : NaiveBayes) (fs : List Nat) (label : String)
    (h : alookup c.classFeatures label = none) :
    addExample c fs label =
      { c with
          totalExamples := c.totalExamples + 1,
          classTotals := (aset (aset c.classTotals label 1) label 2),
          classFeatures := (aset (aset c.classFeatures label []) label
            ((presentIdx fs).foldl (updateCount c.smoothing) [])) } := by
  unfold addExample
  rw [h]
  simp [alookup_aset_self]

theorem addExample_unfold_seen (c : NaiveBayes) (fs : List Nat) (label : String)
    (m : List (Nat × Nat)) (h : alookup c.classFeatures label = some m) :
    addExample c fs label =
      { c with
          totalExamples := c.totalExamples + 1,
          classTotals := (aset c.classTotals label ((alookup c.classTotals label).getD 0 + 1)),
          classFeatures := (aset c.classFeatures label
            ((presentIdx fs).foldl (updateCount c.smoothing) m)) } := by
  unfold addExample
  rw [h]
  simp [h]

/-- Claim C2: addExample with a positional 0/1 vector initializes a fresh
label with an empty count map and class total 1, then bumps the class total
by 1 (so a fresh label ends at total 2 with its count map holding exactly
the present features at 1 + smoothing); for an already-seen label the class
total is bumped by 1 and every present feature count is set to 1 + smoothing
when the feature is first seen for the class, else bumped by 1.  The
hypothesis that no recorded count is zero holds in every reachable state
(claim C6). -/
theorem addExample_spec (c : NaiveBayes) (fs : List Nat) (label : String)
    (hpos : ∀ m, alookup c.classFeatures label = some m →
       ∀ i n, alookup m i = some n → n ≠ 0) :
    (alookup c.classFeatures label = none →
       alookup (addExample c fs label).classTotals label = some 2 ∧
       ∀ i : Nat,
         alookup ((alookup (addExample c fs label).classFeatures label).getD []) i =
           (if fs.getD i 0 ≠ 0 then some (1 + c.smoothing) else none)) ∧
    (∀ m, alookup c.classFeatures label = some m →
       (∀ t, alookup c.classTotals label = some t →
          alookup (addExample c fs label).classTotals label = some (t + 1)) ∧
       (∀ i : Nat, fs.getD i 0 ≠ 0 →
         alookup ((alookup (addExample c fs label).classFeatures label).getD []) i =
           some (match alookup m i with
                 | some n => n + 1
                 | none => 1 + c.smoothing))) := by
  constructor
  · intro h
    rw [addExample_unfold_new c fs label h]
    constructor
    · exact alookup_aset_self _ _ _
    · intro i
      simp only [alookup_aset_self, Option.getD_some]
      rw [alookup_foldl_updateCount _ _ (nodup_presentIdx fs)]
      by_cases hp : i ∈ presentIdx fs
      · rw [if_pos hp, if_pos (mem_presentIdx.1 hp)]
        simp [alookup]
      · rw [if_neg hp]
        rw [if_neg (fun hne => hp (mem_presentIdx.2 hne))]
        rfl
  · intro m hm
    rw [addExample_unfold_seen c fs label m hm]
    constructor
    · intro t ht
      simp only [ht, Option.getD_some]
      exact alookup_aset_self _ _ _
    · intro i hfi
      simp only [alookup_aset_self, Option.getD_some]
      rw [alookup_foldl_updateCount _ _ (nodup_presentIdx fs),
          if_pos (mem_presentIdx.2 hfi)]
      cases hmi : alookup m i with
      | none => simp
      | some n =>
        have hn : n ≠ 0 := hpos m hm i n hmi
        simp [hn]

/-- Witness for claim C2: a fresh label on a fresh classifier, vector with one
present and one absent feature. -/
theorem addExample_spec_witness :
    alookup newClassifier.classFeatures "a" = none ∧
    alookup (addExample newClassifier [1, 0] "a").classTotals "a" = some 2 ∧
    alookup ((alookup (addExample newClassifier [1, 0] "a").classFeatures "a").getD []) 0 =
      (if ([1, 0] : List Nat).getD 0 0 ≠ 0 then some (1 + newClassifier.smoothing) else none) ∧
    alookup ((alookup (addExample newClassifier [1, 0] "a").classFeatures "a").getD []) 1 =
      (if ([1, 0] : List Nat).getD 1 0 ≠ 0 then some (1 + newClassifier.smoothing) else none) := by
  have h := (addExample_spec newClassifier [1, 0] "a"
    (by intro m hm; cases hm)).1 (by rfl)
  exact ⟨rfl, h.1, h.2 0, h.2 1⟩

/-- A concrete stemmer used to instantiate witnesses: every string is its own
single stem. -/
def stem0 : String → List String := fun s => [s]

theorem byValueDesc_trans (a b d : ClassEntry) (hab : byValueDesc a b)
    (hbd : byValueDesc b d) : byValueDesc a d :=
  decide_eq_true (le_trans (of_decide_eq_true hbd) (of_decide_eq_true hab))

theorem byValueDesc_total (a b : ClassEntry) : byValueDesc a b || byValueDesc b a := by
  simp only [byValueDesc, Bool.or_eq_true, decide_eq_true_eq]
  exact le_total b.value a.value

/-- Claim C5: whenever getClassifications returns a list, it holds one entry
per trained class (its labels are a permutation of the classFeatures keys in
the state) and every adjacent pair is ordered descending by value. -/
theorem getClassifications_sorted (stem : String → List String) (c : NaiveBayes)
    (doc : JsDoc) (cls : List ClassEntry)
    (h : getClassifications stem c doc = some cls) :
    List.Chain' (fun x y => y.value ≤ x.value) cls ∧
    List.Perm (cls.map ClassEntry.label) (keys c.classFeatures) := by
  unfold getClassifications at h
  cases hl : labelsLoop stem c doc (keys c.classFeatures) with
  | none =>
    rw [hl] at h
    cases h
  | some es =>
    rw [hl, Option.map_some'] at h
    have hcls : cls = es.mergeSort byValueDesc := (Option.some_injective _ h).symm
    subst hcls
    constructor
    · have hs := List.sorted_mergeSort byValueDesc_trans byValueDesc_total es
      exact List.Pairwise.chain' (hs.imp (fun hab => of_decide_eq_true hab))
    · have hperm : List.Perm (es.mergeSort byValueDesc) es := List.mergeSort_perm es _
      have := hperm.map ClassEntry.label
      rw [labelsLoop_map_label stem c doc _ es hl] at this
      exact this

/-- Witness for claim C5 on a concrete one-class classifier. -/
theorem getClassifications_sorted_witness :
    getClassifications stem0 (addExample newClassifier [] "a") (JsDoc.arr []) =
      some [{ label := "a", value := ((2 : Real) / (2 : Real)) * Real.exp 0 }] ∧
    (List.Chain' (fun x y : ClassEntry => y.value ≤ x.value)
        ([{ label := "a", value := ((2 : Real) / (2 : Real)) * Real.exp 0 }] : List ClassEntry) ∧
      List.Perm
        (([{ label := "a", value := ((2 : Real) / (2 : Real)) * Real.exp 0 }] : List ClassEntry).map ClassEntry.label)
        (keys (addExample newClassifier [] "a").classFeatures)) := by
  have hg : getClassifications stem0 (addExample newClassifier [] "a") (JsDoc.arr []) =
      some [{ label := "a", value := ((2 : Real) / (2 : Real)) * Real.exp 0 }] := by
    simp [getClassifications, labelsLoop, keys, docToFeatures, docStems,
      docToFeaturesArr, probabilityOfClass, addExample, newClassifier, presentIdx,
      aset, alookup, bind, pure]
  exact ⟨hg, getClassifications_sorted stem0 _ _ _ hg⟩

/-- Every count of an inner class map is at least 1 + smoothing. -/
def CountsOK (sm : Nat) (m : List (Nat × Nat)) : Prop :=
  ∀ i n, alookup m i = some n → 1 + sm ≤ n

/-- Every recorded count of every class map of the state has the floor. -/
def ClassCountsOK (c : NaiveBayes) : Prop :=
  ∀ label m, alookup c.classFeatures label = some m → CountsOK c.smoothing m

/-- The stems of ts that are not already in K, first occurrences only, in
order of first occurrence. -/
def dedupNew (K : List String) : List String → List String
  | [] => []
  | t :: ts => if t ∈ K then dedupNew K ts else t :: dedupNew (K ++ [t]) ts

/-- First occurrences of the stems of ts, in order of first occurrence. -/
def dedupFirst (ts : List String) : List String := dedupNew [] ts

/-- The vocabulary enumeration is exactly the first-seen order of the stems
of all logged documents. -/
def VocabOK (c : NaiveBayes) : Prop :=
  keys c.features = dedupFirst ((c.docs.map DocObj.value).flatten)

theorem countsOK_updateCount (sm : Nat) (m : List (Nat × Nat)) (i : Nat)
    (h : CountsOK sm m) : CountsOK sm (updateCount sm m i) := by
  intro j n hj
  unfold updateCount at hj
  by_cases hc : (alookup m i).getD 0 ≠ 0
  · rw [if_pos hc] at hj
    rcases alookup_aset_cases hj with ⟨hji, hnv⟩ | ⟨hne, hj⟩
    · cases hv : alookup m i with
      | none => rw [hv] at hc; simp at hc
      | some v =>
        have hvf := h i v hv
        rw [hnv, hv]
        simp only [Option.getD_some]
        omega
    · exact h j n hj
  · rw [if_neg hc] at hj
    rcases alookup_aset_cases hj with ⟨hji, hnv⟩ | ⟨hne, hj⟩
    · omega
    · exact h j n hj

theorem countsOK_foldl (sm : Nat) (is : List Nat) (m : List (Nat × Nat))
    (h : CountsOK sm m) : CountsOK sm (is.foldl (updateCount sm) m) := by
  induction is generalizing m with
  | nil => exact h
  | cons i rest ih => exact ih _ (countsOK_updateCount sm m i h)

theorem classCountsOK_addExample (c : NaiveBayes) (fs : List Nat) (label : String)
    (h : ClassCountsOK c) : ClassCountsOK (addExample c fs label) := by
  cases hm : alookup c.classFeatures label with
  | none =>
    rw [addExample_unfold_new c fs label hm]
    intro label' m' hm'
    rcases alookup_aset_cases hm' with ⟨hl, hmv⟩ | ⟨hne, hm'⟩
    · rw [hmv]
      exact countsOK_foldl _ _ _ (by intro i n hin; simp [alookup] at hin)
    · rcases alookup_aset_cases hm' with ⟨he, _⟩ | ⟨hne2, hm''⟩
      · exact absurd he hne
      · exact h label' m' hm''
  | some m =>
    rw [addExample_unfold_seen c fs label m hm]
    intro label' m' hm'
    rcases alookup_aset_cases hm' with ⟨hl, hmv⟩ | ⟨hne, hm'⟩
    · rw [hmv]
      exact countsOK_foldl _ _ _ (h label m hm)
    · exact h label' m' hm'

theorem addExampleMap_unfold_new (c : NaiveBayes) (vals : List Nat) (label : String)
    (h : alookup c.classFeatures label = none) :
    addExampleMap c vals label =
      { c with
          totalExamples := c.totalExamples + 1,
          classTotals := (aset c.classTotals label 1),
          classFeatures := (aset (aset c.classFeatures label []) label
            (vals.foldl (updateCount c.smoothing) [])) } := by
  unfold addExampleMap
  rw [h]
  simp [alookup_aset_self]

theorem addExampleMap_unfold_seen (c : NaiveBayes) (vals : List Nat) (label : String)
    (m : List (Nat × Nat)) (h : alookup c.classFeatures label = some m) :
    addExampleMap c vals label =
      { c with
          totalExamples := c.totalExamples + 1,
          classFeatures := (aset c.classFeatures label
            (vals.foldl (updateCount c.smoothing) m)) } := by
  unfold addExampleMap
  rw [h]
  simp [h]

theorem classCountsOK_addExampleMap (c : NaiveBayes) (vals : List Nat)
    (label : String) (h : ClassCountsOK c) : ClassCountsOK (addExampleMap c vals label) := by
  cases hm : alookup c.classFeatures label with
  | none =>
    rw [addExampleMap_unfold_new c vals label hm]
    intro label' m' hm'
    rcases alookup_aset_cases hm' with ⟨hl, hmv⟩ | ⟨hne, hm'⟩
    · rw [hmv]
      exact countsOK_foldl _ _ _ (by intro i n hin; simp [alookup] at hin)
    · rcases alookup_aset_cases hm' with ⟨he, _⟩ | ⟨hne2, hm''⟩
      · exact absurd he hne
      · exact h label' m' hm''
  | some m =>
    rw [addExampleMap_unfold_seen c vals label m hm]
    intro label' m' hm'
    rcases alookup_aset_cases hm' with ⟨hl, hmv⟩ | ⟨hne, hm'⟩
    · rw [hmv]
      exact countsOK_foldl _ _ _ (h label m hm)
    · exact h label' m' hm'

theorem classCountsOK_trainLoop (ds : List DocObj) (c : NaiveBayes)
    (h : ClassCountsOK c) : ClassCountsOK (trainLoop c ds) := by
  induction ds generalizing c with
  | nil => exact h
  | cons d rest ih =>
    rw [trainLoop]
    apply ih
    intro label m hm
    exact classCountsOK_addExample c (docToFeaturesArr c d.value) d.label h label m hm

theorem keys_foldl_aset (ts : List String) (m : List (String × Nat)) :
    keys (ts.foldl (fun m t => aset m t 1) m) = keys m ++ dedupNew (keys m) ts := by
  induction ts generalizing m with
  | nil => simp [dedupNew]
  | cons t rest ih =>
    rw [List.foldl_cons, ih, keys_aset]
    by_cases h : t ∈ keys m
    · rw [if_pos h, dedupNew, if_pos h]
    · rw [if_neg h, dedupNew, if_neg h]
      simp

theorem dedupNew_append (K a b : List String) :
    dedupNew K (a ++ b) = dedupNew K a ++ dedupNew (K ++ dedupNew K a) b := by
  induction a generalizing K with
  | nil => simp [dedupNew]
  | cons t rest ih =>
    rw [List.cons_append, dedupNew, dedupNew]
    by_cases h : t ∈ K
    · rw [if_pos h, if_pos h, ih]
    · rw [if_neg h, if_neg h, ih]
      simp

theorem dedupNew_nodup (K ts : List String) :
    (dedupNew K ts).Nodup ∧ ∀ x ∈ dedupNew K ts, x ∉ K := by
  induction ts generalizing K with
  | nil => simp [dedupNew]
  | cons t rest ih =>
    rw [dedupNew]
    by_cases h : t ∈ K
    · simpa [h] using ih K
    · rw [if_neg h]
      obtain ⟨hnd, hmem⟩ := ih (K ++ [t])
      refine ⟨List.nodup_cons.2 ⟨fun hx => ?_, hnd⟩, ?_⟩
      · exact (hmem t hx) (by simp)
      · intro x hx hxK
        rcases List.mem_cons.1 hx with rfl | hx1
        · exact h hxK
        · exact hmem x hx1 (by simp [hxK])

theorem addDocument_ok_fields (stem : String → List String) (c : NaiveBayes)
    (doc : JsDoc) (label : String) (c1 : NaiveBayes)
    (h : addDocument stem c doc label = .ok c1) :
    c1.classFeatures = c.classFeatures ∧ c1.classTotals = c.classTotals ∧
    c1.smoothing = c.smoothing ∧ c1.lastAdded = c.lastAdded ∧
    c1.totalExamples = c.totalExamples ∧
    ((c1.docs = c.docs ∧ c1.features = c.features) ∨
      (∃ stems, docStems stem doc = some stems ∧
        c1.docs = c.docs ++ [{ label := label, value := stems }] ∧
        c1.features = stems.foldl (fun m t => aset m t 1) c.features)) := by
  cases doc with
  | str s =>
    simp only [addDocument, jsSize] at h
    by_cases hn : s.length = 0
    · rw [if_pos hn] at h
      cases h
      exact ⟨rfl, rfl, rfl, rfl, rfl, Or.inl ⟨rfl, rfl⟩⟩
    · rw [if_neg hn] at h
      cases h
      exact ⟨rfl, rfl, rfl, rfl, rfl, Or.inr ⟨stem s, rfl, rfl, rfl⟩⟩
  | arr xs =>
    simp only [addDocument, jsSize] at h
    by_cases hn : xs.length = 0
    · rw [if_pos hn] at h
      cases h
      exact ⟨rfl, rfl, rfl, rfl, rfl, Or.inl ⟨rfl, rfl⟩⟩
    · rw [if_neg hn] at h
      cases h
      exact ⟨rfl, rfl, rfl, rfl, rfl, Or.inr ⟨xs, rfl, rfl, rfl⟩⟩
  | null =>
    simp only [addDocument, jsSize] at h
    cases h
  | undef =>
    simp only [addDocument, jsSize, reduceIte] at h
    cases h
    exact ⟨rfl, rfl, rfl, rfl, rfl, Or.inl ⟨rfl, rfl⟩⟩
  | num n =>
    simp only [addDocument, jsSize, reduceIte] at h
    cases h
    exact ⟨rfl, rfl, rfl, rfl, rfl, Or.inl ⟨rfl, rfl⟩⟩

theorem vocabOK_addDocument (stem : String → List String) (c : NaiveBayes)
    (doc : JsDoc) (label : String) (c1 : NaiveBayes)
    (h : addDocument stem c doc label = .ok c1) (hv : VocabOK c) : VocabOK c1 := by
  obtain ⟨-, -, -, -, -, hdf⟩ := addDocument_ok_fields stem c doc label c1 h
  rcases hdf with ⟨hd, hf⟩ | ⟨stems, -, hd, hf⟩
  · unfold VocabOK
    rw [hd, hf]
    exact hv
  · unfold VocabOK at hv ⊢
    rw [hd, hf, keys_foldl_aset, hv]
    rw [List.map_append, List.flatten_append]
    simp only [List.map_cons, List.map_nil, List.flatten_cons, List.flatten_nil,
      List.append_nil]
    unfold dedupFirst
    rw [dedupNew_append]
    simp

theorem inv_addDocument (stem : String → List String) (c : NaiveBayes)
    (doc : JsDoc) (label : String) (c1 : NaiveBayes)
    (h : addDocument stem c doc label = .ok c1)
    (hinv : c.smoothing = 1 ∧ ClassCountsOK c ∧ VocabOK c) :
    c1.smoothing = 1 ∧ ClassCountsOK c1 ∧ VocabOK c1 := by
  obtain ⟨hcf, hct, hsm, -, -, -⟩ := addDocument_ok_fields stem c doc label c1 h
  obtain ⟨h1, h2, h3⟩ := hinv
  refine ⟨hsm.trans h1, ?_, vocabOK_addDocument stem c doc label c1 h h3⟩
  intro label' m hm i n hin
  rw [hcf] at hm
  rw [hsm]
  exact h2 label' m hm i n hin

theorem inv_addDocuments (stem : String → List String) (ds : List JsDoc)
    (c c1 : NaiveBayes) (label : String)
    (h : addDocuments stem c ds label = .ok c1)
    (hinv : c.smoothing = 1 ∧ ClassCountsOK c ∧ VocabOK c) :
    c1.smoothing = 1 ∧ ClassCountsOK c1 ∧ VocabOK c1 := by
  induction ds generalizing c with
  | nil =>
    rw [addDocuments] at h
    cases h
    exact hinv
  | cons d rest ih =>
    rw [addDocuments] at h
    cases hd : addDocument stem c d label with
    | error e =>
      rw [hd] at h
      simp [Except.bind] at h
    | ok cmid =>
      rw [hd] at h
      simp only [Except.bind] at h
      exact ih cmid h (inv_addDocument stem c d label cmid hd hinv)

theorem reachable_inv (stem : String → List String) (c : NaiveBayes)
    (h : ReachableNB stem c) : c.smoothing = 1 ∧ ClassCountsOK c ∧ VocabOK c := by
  induction h with
  | init =>
    refine ⟨rfl, ?_, rfl⟩
    intro label m hm
    simp [newClassifier, alookup] at hm
  | step c c1 hc hs ih =>
    obtain ⟨h1, h2, h3⟩ := ih
    cases hs with
    | doc1 doc label c10 hok => exact inv_addDocument stem c doc label c1 hok ⟨h1, h2, h3⟩
    | docN ds label c10 hok => exact inv_addDocuments stem ds c c1 label hok ⟨h1, h2, h3⟩
    | tr =>
      refine ⟨(trainLoop_smoothing _ _).trans h1, classCountsOK_trainLoop _ _ h2, ?_⟩
      unfold VocabOK
      rw [show (train c).features = c.features from trainLoop_features _ _,
          show (train c).docs = c.docs from trainLoop_docs _ _]
      exact h3
    | exArr fs label =>
      refine ⟨(addExample_smoothing _ _ _).trans h1,
        classCountsOK_addExample _ _ _ h2, ?_⟩
      unfold VocabOK
      rw [addExample_features, addExample_docs]
      exact h3
    | exMap vals label =>
      refine ⟨(addExampleMap_smoothing _ _ _).trans h1,
        classCountsOK_addExampleMap _ _ _ h2, ?_⟩
      unfold VocabOK
      rw [addExampleMap_features, addExampleMap_docs]
      exact h3

/-- Claim C6: in every classifier state reachable by any sequence of
addDocument, addDocuments, train and addExample calls, every count stored in
any class feature-count map is at least 1 + smoothing (with smoothing fixed
at 1), hence strictly positive, so the recorded counts that probabilityOfClass
feeds to log are never non-positive. -/
theorem counts_floor_invariant (stem : String → List String) (c : NaiveBayes)
    (h : ReachableNB stem c) :
    c.smoothing = 1 ∧
    ∀ label m, alookup c.classFeatures label = some m →
      ∀ i n, alookup m i = some n → 1 + c.smoothing ≤ n :=
  ⟨(reachable_inv stem c h).1,
    fun label m hm i n hin => (reachable_inv stem c h).2.1 label m hm i n hin⟩

/-- Witness for claim C6 at a concretely reached state. -/
theorem counts_floor_invariant_witness :
    (addExample newClassifier [1, 1, 0] "a").smoothing = 1 ∧
    1 + (addExample newClassifier [1, 1, 0] "a").smoothing ≤ 2 := by
  have hr : ReachableNB stem0 (addExample newClassifier [1, 1, 0] "a") :=
    ReachableNB.step _ _ ReachableNB.init (StepNB.exArr _ _ _)
  have h := counts_floor_invariant stem0 _ hr
  exact ⟨h.1, h.2 "a" [(1, 2), (0, 2)] (by rfl) 0 2 (by rfl)⟩

/-- Claim C9: in every reachable state, docToFeatures on a document with a
stem sequence returns one 0/1 entry per distinct vocabulary stem in the order
stems were first observed across all added documents (duplicates ignored),
entry i being 1 exactly when the document stems contain the i-th vocabulary
stem. -/
theorem docToFeatures_spec (stem : String → List String) (c : NaiveBayes)
    (h : ReachableNB stem c) (doc : JsDoc) (stems : List String)
    (hd : docStems stem doc = some stems) :
    docToFeatures stem c doc =
      some ((dedupFirst ((c.docs.map DocObj.value).flatten)).map
        (fun t => if stems.contains t then 1 else 0)) ∧
    (dedupFirst ((c.docs.map DocObj.value).flatten)).Nodup := by
  constructor
  · unfold docToFeatures
    rw [hd]
    show some (docToFeaturesArr c stems) = _
    have hv : keys c.features = dedupFirst ((c.docs.map DocObj.value).flatten) :=
      (reachable_inv stem c h).2.2
    rw [← hv]
    unfold docToFeaturesArr keys
    rw [List.map_map]
    rfl
  · exact (dedupNew_nodup [] _).1

/-- A concrete state reached by one addDocument call, used by a witness. -/
def cW9 : NaiveBayes :=
  { docs := [{ label := "x", value := ["b", "a", "b"] }], lastAdded := 0,
    features := [("b", 1), ("a", 1)], classFeatures := [], classTotals := [],
    totalExamples := 1, smoothing := 1 }

/-- Witness for claim C9: the vocabulary from a document with a duplicated
stem enumerates first occurrences only. -/
theorem docToFeatures_spec_witness :
    docStems stem0 (JsDoc.arr ["a", "c"]) = some ["a", "c"] ∧
    docToFeatures stem0 cW9 (JsDoc.arr ["a", "c"]) = some [0, 1] := by
  refine ⟨rfl, ?_⟩
  have hr : ReachableNB stem0 cW9 :=
    ReachableNB.step _ _ ReachableNB.init
      (StepNB.doc1 _ (JsDoc.arr ["b", "a", "b"]) "x" _ (by rfl))
  have h := (docToFeatures_spec stem0 cW9 hr (JsDoc.arr ["a", "c"]) ["a", "c"] rfl).1
  rw [h]
  rfl

theorem labelsLoopS_state (stem : String → List String) (doc : JsDoc)
    (ls : List String) (c : NaiveBayes) : (labelsLoopS stem doc c ls).2 = c := by
  induction ls generalizing c with
  | nil => rfl
  | cons l rest ih =>
    rw [labelsLoopS]
    cases hf : docToFeatures stem c doc with
    | none => simp [docToFeaturesS, hf]
    | some fs =>
      cases hv : probabilityOfClass c fs l with
      | none => simp [docToFeaturesS, probabilityOfClassS, hf, hv]
      | some v =>
        cases hrest : labelsLoopS stem doc c rest with
        | mk ro c3 =>
          have h3 : c3 = c := by
            have := ih c
            rw [hrest] at this
            exact this
          subst h3
          cases ro <;> simp [docToFeaturesS, probabilityOfClassS, hf, hv, hrest]

/-- Claim C10: the inference operations never modify classifier state: the
state-passing renderings of docToFeatures, probabilityOfClass,
getClassifications and classify (which thread the instance through every
internal call and write no field) all return the state they were given. -/
theorem inference_preserves_state (stem : String → List String) (c : NaiveBayes)
    (doc : JsDoc) (fs : List Nat) (label : String) :
    (docToFeaturesS stem c doc).2 = c ∧
    (probabilityOfClassS c fs label).2 = c ∧
    (getClassificationsS stem c doc).2 = c ∧
    (classifyS stem c doc).2 = c := by
  have hget : (getClassificationsS stem c doc).2 = c := by
    unfold getClassificationsS
    cases hl : labelsLoopS stem doc c (keys c.classFeatures) with
    | mk r c1 =>
      have := labelsLoopS_state stem doc (keys c.classFeatures) c
      rw [hl] at this
      exact this
  refine ⟨rfl, rfl, hget, ?_⟩
  unfold classifyS
  cases hg : getClassificationsS stem c doc with
  | mk r c1 =>
    have h1 : c1 = c := by
      rw [hg] at hget
      exact hget
    subst h1
    cases r with
    | none => rfl
    | some cls => cases cls <;> rfl
